import Mathlib

/-!
# Easy3D: PLY input/output of point clouds

A shallow embedding of `easy3d/fileio/point_cloud_io_ply.cpp`
(`details::add_properties`, `load_ply`, `details::collect_properties`,
`save_ply`) and the properties of its specification.

Conventions of the embedding

* `std::string` is the list of its characters (`CppString`).
* `std::size_t` values are natural numbers; the one narrowing cast of the
  file, `static_cast<unsigned int>`, is `% 2 ^ 32`.
* `float` is an IEEE-754 bit pattern. The file only copies floats.
* The PLY codec (`PlyReader`, `PlyWriter`) is external: it is a parameter of
  `load_ply` and `save_ply`, and the write calls issued are recorded.
* The point-cloud container is external as well; it is modelled from the
  specification (section `PointCloud`).
* Text sent to `std::cerr` is collected as a list of messages.
-/

namespace easy3d

/-- A `std::string`, as the list of its characters. -/
abbrev CppString := List Char

/-- The C++ `float`: a bit pattern that this file copies and never inspects. -/
structure float where
  bits : Nat
deriving DecidableEq, Repr

/-- The type `vec3` of `easy3d/core/types.h`: three floats. -/
structure vec3 where
  x : float
  y : float
  z : float
deriving DecidableEq, Repr

/-! ## `std::string` operations used by the file -/

/-- Whether `pat` occurs in `s` at position 0. -/
def starts_with : CppString → CppString → Bool
  | _, [] => true
  | [], _ :: _ => false
  | c :: s, d :: pat => c == d && starts_with s pat

/-- Search of `std::string::find` from position `pos` on, where `s` is what is
left of the string from `pos`. -/
def find_from : CppString → CppString → Nat → Option Nat
  | [], pat, pos => if starts_with [] pat then some pos else none
  | c :: s, pat, pos =>
    if starts_with (c :: s) pat then some pos else find_from s pat (pos + 1)

/-- The call `s.find(pat)` of `std::string`: the position of the first
occurrence of `pat` in `s`, and `none` for `std::string::npos`. -/
def find (s pat : CppString) : Option Nat :=
  find_from s pat 0

/-- The call `s.substr(pos, count)` of `std::string`, for `pos ≤ s.length`
(beyond that the C++ call throws; both calls of this file have `pos` within
the string). The count is cut at the end of the string. -/
def substr (s : CppString) (pos count : Nat) : CppString :=
  (s.drop pos).take count

/-! ## Element and property model (`easy3d/fileio/ply_reader_writer.h`) -/

/-- Modelled from the spec: the class `GenericProperty<T>`, a triple of element
name, property name and value vector. The source reads its `name`, copies it
as a vector and builds it from the three components. -/
structure GenericProperty (T : Type) where
  element_name : CppString
  name : CppString
  vector : List T
deriving DecidableEq, Repr

/-- Modelled from the spec: the struct `Element`, a named table of
`num_instances` rows with one bucket of properties per type category. -/
structure Element where
  name : CppString
  num_instances : Nat
  vec3_properties : List (GenericProperty vec3)
  float_properties : List (GenericProperty float)
  int_properties : List (GenericProperty Int)
  int_list_properties : List (GenericProperty (List Int))
  float_list_properties : List (GenericProperty (List float))
deriving DecidableEq, Repr

/-- The constructor `Element(name, num_instances)`: all buckets empty. -/
def Element.init (name : CppString) (num_instances : Nat) : Element :=
  ⟨name, num_instances, [], [], [], [], []⟩

/-! ## PointCloud (`easy3d/core/point_cloud.h`) -/

/-- The five type categories of vertex properties. -/
inductive Category where
  | vec3
  | float
  | int
  | int_list
  | float_list
deriving DecidableEq, Repr

/-- The backing vector of one vertex property, of one of the five types. -/
inductive PropertyArray where
  | vec3s (v : List vec3)
  | floats (v : List float)
  | ints (v : List Int)
  | int_lists (v : List (List Int))
  | float_lists (v : List (List float))
deriving DecidableEq, Repr

/-- The type category of a property array. -/
def PropertyArray.category : PropertyArray → Category
  | .vec3s _ => .vec3
  | .floats _ => .float
  | .ints _ => .int
  | .int_lists _ => .int_list
  | .float_lists _ => .float_list

/-- The types `T` a vertex property can have (the template arguments used by the
file), with the value `T()` and the passage between `std::vector<T>` and the
arrays of the property table. -/
class PropertyType (T : Type) where
  category : Category
  default : T
  toArray : List T → PropertyArray
  ofArray : PropertyArray → Option (List T)
  category_toArray : ∀ v, (toArray v).category = category
  ofArray_toArray : ∀ v, ofArray (toArray v) = some v
  toArray_of_ofArray : ∀ a v, ofArray a = some v → a = toArray v
  ofArray_isSome : ∀ a, a.category = category → (ofArray a).isSome = true

instance : PropertyType vec3 where
  category := .vec3
  default := ⟨⟨0⟩, ⟨0⟩, ⟨0⟩⟩
  toArray := .vec3s
  ofArray a := match a with
    | .vec3s v => some v
    | _ => none
  category_toArray _ := rfl
  ofArray_toArray _ := rfl
  toArray_of_ofArray a v h := by cases a <;> simp_all
  ofArray_isSome a h := by cases a <;> simp_all [PropertyArray.category]

instance : PropertyType float where
  category := .float
  default := ⟨0⟩
  toArray := .floats
  ofArray a := match a with
    | .floats v => some v
    | _ => none
  category_toArray _ := rfl
  ofArray_toArray _ := rfl
  toArray_of_ofArray a v h := by cases a <;> simp_all
  ofArray_isSome a h := by cases a <;> simp_all [PropertyArray.category]

instance : PropertyType Int where
  category := .int
  default := 0
  toArray := .ints
  ofArray a := match a with
    | .ints v => some v
    | _ => none
  category_toArray _ := rfl
  ofArray_toArray _ := rfl
  toArray_of_ofArray a v h := by cases a <;> simp_all
  ofArray_isSome a h := by cases a <;> simp_all [PropertyArray.category]

instance : PropertyType (List Int) where
  category := .int_list
  default := []
  toArray := .int_lists
  ofArray a := match a with
    | .int_lists v => some v
    | _ => none
  category_toArray _ := rfl
  ofArray_toArray _ := rfl
  toArray_of_ofArray a v h := by cases a <;> simp_all
  ofArray_isSome a h := by cases a <;> simp_all [PropertyArray.category]

instance : PropertyType (List float) where
  category := .float_list
  default := []
  toArray := .float_lists
  ofArray a := match a with
    | .float_lists v => some v
    | _ => none
  category_toArray _ := rfl
  ofArray_toArray _ := rfl
  toArray_of_ofArray a v h := by cases a <;> simp_all
  ofArray_isSome a h := by cases a <;> simp_all [PropertyArray.category]

/-- The call `v.resize(n, d)` of `std::vector`. -/
def resize_vector {T : Type} (d : T) (n : Nat) (v : List T) : List T :=
  v.take n ++ List.replicate (n - v.length) d

/-- Resizing of a property array, new entries being `T()`. -/
def PropertyArray.resize (n : Nat) : PropertyArray → PropertyArray
  | .vec3s v => .vec3s (resize_vector (PropertyType.default) n v)
  | .floats v => .floats (resize_vector (PropertyType.default) n v)
  | .ints v => .ints (resize_vector (PropertyType.default) n v)
  | .int_lists v => .int_lists (resize_vector (PropertyType.default) n v)
  | .float_lists v => .float_lists (resize_vector (PropertyType.default) n v)

/-- One row of the property table: a name and its typed backing vector. -/
structure PropertyEntry where
  name : CppString
  array : PropertyArray
deriving DecidableEq, Repr

/-- Modelled from the spec: the class `PointCloud`, which "holds a vertex count
and a mapping from property name to a homogeneous typed vector of that length,
for each of the five type categories". A property is found by its name and
its type category; the property table is kept in insertion order, which is
the order `vertex_properties()` enumerates. -/
structure PointCloud where
  n_vertices : Nat
  properties : List PropertyEntry
deriving DecidableEq, Repr

/-- Modelled from the spec: a property handle (`PointCloud::VertexProperty<T>`),
which exposes the backing vector of one row of the property table. -/
structure Property (T : Type) where
  index : Nat
deriving DecidableEq, Repr

/-- The cloud a caller starts from: no vertex, no property. -/
def PointCloud.empty : PointCloud := ⟨0, []⟩

/-- Position in the table of the property called `name` in category `cat`. -/
def find_entry (cat : Category) (name : CppString) : List PropertyEntry → Option Nat
  | [] => none
  | e :: es =>
    if e.name = name ∧ e.array.category = cat then some 0
    else (find_entry cat name es).map (· + 1)

/-- Replacement of the backing vector of row `i`. -/
def set_entry : List PropertyEntry → Nat → PropertyArray → List PropertyEntry
  | [], _, _ => []
  | e :: es, 0, a => ⟨e.name, a⟩ :: es
  | e :: es, i + 1, a => e :: set_entry es i a

/-- Modelled from the spec: `resize(count)`. The vertex count becomes `count`
and every backing vector is resized to it. -/
def PointCloud.resize (cloud : PointCloud) (count : Nat) : PointCloud :=
  ⟨count, cloud.properties.map fun e => ⟨e.name, e.array.resize count⟩⟩

/-- Modelled from the spec: `vertex_properties() -> sequence of names`. -/
def PointCloud.vertex_properties (cloud : PointCloud) : List CppString :=
  cloud.properties.map PropertyEntry.name

/-- Modelled from the spec: `get_vertex_property<T>(name) -> optional handle`
(get-only). -/
def PointCloud.get_vertex_property (T : Type) [PropertyType T] (cloud : PointCloud)
    (name : CppString) : Option (Property T) :=
  (find_entry (PropertyType.category T) name cloud.properties).map Property.mk

/-- Modelled from the spec: `vertex_property<T>(name) -> handle` (create-or-get).
A created property has one entry `T()` per vertex and goes to the end of the
table. -/
def PointCloud.vertex_property (T : Type) [PropertyType T] (cloud : PointCloud)
    (name : CppString) : PointCloud × Property T :=
  match cloud.get_vertex_property T name with
  | some prop => (cloud, prop)
  | none =>
    (⟨cloud.n_vertices, cloud.properties ++
        [⟨name, PropertyType.toArray (List.replicate cloud.n_vertices (PropertyType.default : T))⟩]⟩,
      ⟨cloud.properties.length⟩)

/-- Modelled from the spec: reading `prop.vector()`, the backing vector a
handle exposes. -/
def Property.vector {T : Type} [PropertyType T] (cloud : PointCloud) (prop : Property T) :
    List T :=
  match cloud.properties[prop.index]? with
  | some e => (PropertyType.ofArray e.array).getD []
  | none => []

/-- Modelled from the spec: the assignment `prop.vector() = v` through a
handle. -/
def Property.assign {T : Type} [PropertyType T] (cloud : PointCloud) (prop : Property T)
    (v : List T) : PointCloud :=
  ⟨cloud.n_vertices, set_entry cloud.properties prop.index (PropertyType.toArray v)⟩

/-- The backing vector of the vertex property of type `T` called `name`, when
the cloud has one: `get_vertex_property<T>(name)` followed by `vector()`. -/
def PointCloud.values (T : Type) [PropertyType T] (cloud : PointCloud) (name : CppString) :
    Option (List T) :=
  (cloud.get_vertex_property T name).map (Property.vector cloud)

/-! ## The PLY codec (`PlyReader`, `PlyWriter`), external -/

/-- The reader of the codec: `read(file_name, elements)` returns its success
flag and the elements it has put in the (initially empty) vector. -/
structure PlyReader where
  read : CppString → Bool × List Element

/-- The writer of the codec: `write(file_name, elements, comment, binary)`
returns its success flag. -/
structure PlyWriter where
  write : CppString → List Element → CppString → Bool → Bool

/-- The arguments of one call of `PlyWriter::write`. -/
structure WriteCall where
  file_name : CppString
  elements : List Element
  comment : CppString
  binary : Bool
deriving DecidableEq, Repr

/-- What `load_ply` leaves behind: its return value, the cloud, and the
messages sent to `std::cerr`. -/
structure LoadResult where
  ok : Bool
  cloud : PointCloud
  cerr : List CppString
deriving DecidableEq, Repr

/-- What `save_ply` leaves behind: its return value, the write calls made to
the codec, the messages sent to `std::cerr` and those of `DLOG_IF`. -/
structure SaveResult where
  ok : Bool
  writes : List WriteCall
  cerr : List CppString
  dlog : List CppString
deriving DecidableEq, Repr

/-! ## `details::add_properties` and `load_ply` -/

/-- Lines 45-47 of the source: the name under which `add_properties` looks up
or creates the property of a carrier called `name`. -/
def add_properties_name (name : CppString) : CppString :=
  if find name "v:".toList = none then "v:".toList ++ name else name

/-- The body of the loop of `add_properties` (lines 45-49). -/
def add_properties_step (T : Type) [PropertyType T] (cloud : PointCloud)
    (p : GenericProperty T) : PointCloud :=
  let name := add_properties_name p.name
  let (cloud, prop) := cloud.vertex_property T name
  prop.assign cloud p.vector

/-- The function `details::add_properties<T>(cloud, properties)`. -/
def add_properties (T : Type) [PropertyType T] (cloud : PointCloud)
    (properties : List (GenericProperty T)) : PointCloud :=
  properties.foldl (add_properties_step T) cloud

/-- First loop of `load_ply` (lines 61-67): resize to the instance count of the
first element named "vertex", cast to `unsigned int`, and stop. -/
def load_ply_resize : List Element → PointCloud → PointCloud
  | [], cloud => cloud
  | e :: elements, cloud =>
    if e.name = "vertex".toList then cloud.resize (e.num_instances % 2 ^ 32)
    else load_ply_resize elements cloud

/-- Second loop of `load_ply` (lines 69-84), on the cloud and the messages
sent to `std::cerr` so far. -/
def load_ply_install : List Element → PointCloud × List CppString →
    PointCloud × List CppString
  | [], state => state
  | e :: elements, (cloud, cerr) =>
    if e.name = "vertex".toList then
      let cloud := add_properties vec3 cloud e.vec3_properties
      let cloud := add_properties float cloud e.float_properties
      let cloud := add_properties Int cloud e.int_properties
      let cloud := add_properties (List Int) cloud e.int_list_properties
      let cloud := add_properties (List float) cloud e.float_list_properties
      load_ply_install elements (cloud, cerr)
    else if e.name = "edge".toList then
      load_ply_install elements (cloud,
        cerr ++ ["The PointCloud has edge information (ignored). Is it a graph?".toList])
    else if e.name = "face".toList then
      load_ply_install elements (cloud,
        cerr ++ ["The PointCloud has face information (ignored). Is it a mesh?".toList])
    else
      load_ply_install elements (cloud,
        cerr ++ ["The PointCloud has unknown element: ".toList ++ e.name ++ " (ignored)".toList])

/-- The function `load_ply(file_name, cloud)`, for a cloud pointer that is not
null (the source dereferences it unchecked). -/
def load_ply (reader : PlyReader) (file_name : CppString) (cloud : PointCloud) : LoadResult :=
  let (ok, elements) := reader.read file_name
  if !ok then ⟨false, cloud, []⟩
  else
    let cloud := load_ply_resize elements cloud
    let (cloud, cerr) := load_ply_install elements (cloud, [])
    ⟨true, cloud, cerr⟩

/-! ## `details::collect_properties` and `save_ply` -/

/-- Lines 98-99 of the source: the name `collect_properties` gives the carrier
of the property called `name`. In the first branch the name has at least two
characters, so `name.length() - 1` does not wrap. -/
def collect_properties_name (name : CppString) : CppString :=
  if substr name 0 2 = "v:".toList then substr name 2 (name.length - 1) else name

/-- The body of the loop of `collect_properties` (lines 96-101). -/
def collect_properties_step (T : Type) [PropertyType T] (cloud : PointCloud)
    (properties : List (GenericProperty T)) (name : CppString) : List (GenericProperty T) :=
  match cloud.get_vertex_property T name with
  | some prop =>
    let name := collect_properties_name name
    properties ++ [⟨"vertex".toList, name, prop.vector cloud⟩]
  | none => properties

/-- The function `details::collect_properties<T>(cloud, properties)`; the cloud
is `const` and the result is the vector `properties` after the call. -/
def collect_properties (T : Type) [PropertyType T] (cloud : PointCloud)
    (properties : List (GenericProperty T)) : List (GenericProperty T) :=
  cloud.vertex_properties.foldl (collect_properties_step T cloud) properties

/-- Lines 113-120 of `save_ply`: the element built from the cloud. -/
def save_ply_element (cloud : PointCloud) : Element :=
  let num := cloud.n_vertices
  let e := Element.init "vertex".toList num
  let e := { e with vec3_properties := collect_properties vec3 cloud e.vec3_properties }
  let e := { e with float_properties := collect_properties float cloud e.float_properties }
  let e := { e with int_properties := collect_properties Int cloud e.int_properties }
  let e := { e with int_list_properties :=
    collect_properties (List Int) cloud e.int_list_properties }
  { e with float_list_properties :=
    collect_properties (List float) cloud e.float_list_properties }

/-- The function `save_ply(file_name, cloud, binary)`; `none` is the null
pointer. -/
def save_ply (writer : PlyWriter) (file_name : CppString) (cloud : Option PointCloud)
    (binary : Bool) : SaveResult :=
  match cloud with
  | none => ⟨false, [], ["empty point cloud data".toList], []⟩
  | some cloud =>
    if cloud.n_vertices = 0 then ⟨false, [], ["empty point cloud data".toList], []⟩
    else
      let e := save_ply_element cloud
      let elements : List Element := [] ++ [e]
      let dlog := if !binary then
        ["you\x27re writing an ASCII ply file. Use binary format for better performance".toList]
        else []
      ⟨writer.write file_name elements [] binary,
        [⟨file_name, elements, [], binary⟩], [], dlog⟩

/-! ## The property table as an association list

Auxiliary definitions for the proofs: the effect of the handle operations on
the table, without handles. -/

/-- The array stored for `name` in category `cat`, if any. -/
def lookup (cat : Category) (name : CppString) : List PropertyEntry → Option PropertyArray
  | [] => none
  | e :: es =>
    if e.name = name ∧ e.array.category = cat then some e.array else lookup cat name es

/-- Overwrite the array stored for `name` in the category of `a`, or add the
row at the end when there is none. -/
def upsert (name : CppString) (a : PropertyArray) : List PropertyEntry → List PropertyEntry
  | [] => [⟨name, a⟩]
  | e :: es =>
    if e.name = name ∧ e.array.category = a.category then ⟨e.name, a⟩ :: es
    else e :: upsert name a es

/-- The rows `rows` put into `table`, one after the other. -/
def install (rows table : List PropertyEntry) : List PropertyEntry :=
  rows.foldl (fun t r => upsert r.name r.array t) table

/-- The row that `add_properties` makes of a carrier. -/
def GenericProperty.row {T : Type} [PropertyType T] (p : GenericProperty T) : PropertyEntry :=
  ⟨add_properties_name p.name, PropertyType.toArray p.vector⟩

/-- The rows that `load_ply` makes of a vertex element, in the order of
installation. -/
def Element.rows (e : Element) : List PropertyEntry :=
  e.vec3_properties.map GenericProperty.row ++ (e.float_properties.map GenericProperty.row ++
    (e.int_properties.map GenericProperty.row ++ (e.int_list_properties.map GenericProperty.row ++
      e.float_list_properties.map GenericProperty.row)))

/-- The names under which `load_ply` stores the properties of a vertex
element, bucket after bucket. -/
def Element.installed_names (e : Element) : List CppString :=
  e.vec3_properties.map (fun p => add_properties_name p.name) ++
    (e.float_properties.map (fun p => add_properties_name p.name) ++
      (e.int_properties.map (fun p => add_properties_name p.name) ++
        (e.int_list_properties.map (fun p => add_properties_name p.name) ++
          e.float_list_properties.map (fun p => add_properties_name p.name))))

/-- The rows `load_ply` installs for a sequence of elements: those of its
elements named "vertex", in order. -/
def vertex_rows : List Element → List PropertyEntry
  | [] => []
  | e :: es => if e.name = "vertex".toList then e.rows ++ vertex_rows es else vertex_rows es

/-- The rows that the carriers collected in category `cat` bring back: for every
row of `es`, in order, its name with the array `table` holds under that name in
the category. -/
def carried_rows (cat : Category) (table es : List PropertyEntry) : List PropertyEntry :=
  es.filterMap fun e => (lookup cat e.name table).map fun a => ⟨e.name, a⟩

/-- The rows brought back by the five buckets, in the order of the buckets. -/
def all_carried_rows (table : List PropertyEntry) : List PropertyEntry :=
  carried_rows .vec3 table table ++ (carried_rows .float table table ++
    (carried_rows .int table table ++ (carried_rows .int_list table table ++
      carried_rows .float_list table table)))

/-- The number of entries of a backing vector. -/
def PropertyArray.size : PropertyArray → Nat
  | .vec3s v => v.length
  | .floats v => v.length
  | .ints v => v.length
  | .int_lists v => v.length
  | .float_lists v => v.length

/-- The invariant of the specification for an element: "every property vector
across every bucket has exactly `num_instances` entries". -/
abbrev Element.well_formed (e : Element) : Prop :=
  (∀ p ∈ e.vec3_properties, p.vector.length = e.num_instances) ∧
  (∀ p ∈ e.float_properties, p.vector.length = e.num_instances) ∧
  (∀ p ∈ e.int_properties, p.vector.length = e.num_instances) ∧
  (∀ p ∈ e.int_list_properties, p.vector.length = e.num_instances) ∧
  (∀ p ∈ e.float_list_properties, p.vector.length = e.num_instances)

/-! ## Concrete inputs -/

/-- A file name. -/
def sample_file : CppString := "cloud.ply".toList


/-- A reader whose read fails. -/
def failing_reader : PlyReader := ⟨fun _ => (false, [])⟩

/-- A writer whose write succeeds. -/
def accepting_writer : PlyWriter := ⟨fun _ _ _ _ => true⟩

/-- A reader that returns, for a file name, the elements of the first of the
given write calls made for that name. -/
def echo_reader (calls : List WriteCall) : PlyReader :=
  ⟨fun file_name =>
    match calls.find? (fun c => c.file_name = file_name) with
    | some c => (true, c.elements)
    | none => (false, [])⟩

/-- An element named "face", with two rows. -/
def face_element : Element :=
  ⟨"face".toList, 2, [], [], [⟨"face".toList, "flag".toList, [1, 0]⟩],
    [⟨"face".toList, "vertex_indices".toList, [[0, 1, 2], [0, 2, 3]]⟩], []⟩

/-- The vertex element of the scenario of the specification: three rows, a
vec3 property "point" and a float property "v:quality". -/
def scenario_element : Element :=
  ⟨"vertex".toList, 3,
    [⟨"vertex".toList, "point".toList,
      [⟨⟨1⟩, ⟨2⟩, ⟨3⟩⟩, ⟨⟨4⟩, ⟨5⟩, ⟨6⟩⟩, ⟨⟨7⟩, ⟨8⟩, ⟨9⟩⟩]⟩],
    [⟨"vertex".toList, "v:quality".toList, [⟨10⟩, ⟨11⟩, ⟨12⟩]⟩], [], [], []⟩

/-- A reader that returns a face element followed by the vertex element of the
scenario. -/
def scenario_reader : PlyReader := ⟨fun _ => (true, [face_element, scenario_element])⟩

/-- A cloud of two vertices with three properties named by the convention. -/
def sample_cloud : PointCloud :=
  ⟨2, [⟨"v:label".toList, .ints [5, 6]⟩,
    ⟨"v:point".toList, .vec3s [⟨⟨1⟩, ⟨2⟩, ⟨3⟩⟩, ⟨⟨4⟩, ⟨5⟩, ⟨6⟩⟩]⟩,
    ⟨"v:quality".toList, .floats [⟨7⟩, ⟨8⟩]⟩]⟩

/-- A cloud of one vertex whose float property "quality" does not carry the
marker "v:". -/
def unmarked_cloud : PointCloud := ⟨1, [⟨"quality".toList, .floats [⟨7⟩]⟩]⟩

/-- A reader that returns the face element alone. -/
def face_reader : PlyReader := ⟨fun _ => (true, [face_element])⟩

/-- A vertex element of two rows with the int property "label". -/
def short_element : Element :=
  ⟨"vertex".toList, 2, [], [], [⟨"vertex".toList, "label".toList, [1, 2]⟩], [], []⟩

/-- A reader that returns two elements named "vertex": one of two rows, then
the one of the scenario, of three rows. -/
def two_vertex_reader : PlyReader := ⟨fun _ => (true, [short_element, scenario_element])⟩

/-- A vertex element without properties whose instance count is 2^32 + 3. -/
def large_element : Element := Element.init "vertex".toList (2 ^ 32 + 3)

/-- A reader that returns the face element and the element of 2^32 + 3 rows. -/
def large_reader : PlyReader := ⟨fun _ => (true, [face_element, large_element])⟩

theorem marker_isPrefix_iff (name : CppString) :
    "v:".toList <+: name ↔ ∃ rest, name = 'v' :: ':' :: rest := by
  show ['v', ':'] <+: name ↔ _
  constructor
  · rintro ⟨t, rfl⟩
    exact ⟨t, rfl⟩
  · rintro ⟨t, rfl⟩
    exact ⟨t, rfl⟩

theorem collect_properties_name_marker (rest : CppString) :
    collect_properties_name ('v' :: ':' :: rest) = rest := by
  have h : substr ('v' :: ':' :: rest) 0 2 = "v:".toList := by
    show List.take 2 (List.drop 0 ('v' :: ':' :: rest)) = ['v', ':']
    simp
  unfold collect_properties_name
  rw [if_pos h]
  simp [substr]

theorem collect_properties_name_other (name : CppString)
    (h : ¬ ∃ rest, name = 'v' :: ':' :: rest) : collect_properties_name name = name := by
  have h2 : substr name 0 2 ≠ "v:".toList := by
    intro h3
    apply h
    have h4 : List.take 2 name = ['v', ':'] := h3
    refine ⟨name.drop 2, ?_⟩
    have h5 := List.take_append_drop 2 name
    rw [h4] at h5
    exact h5.symm
  unfold collect_properties_name
  rw [if_neg h2]

/-! ## Lemmas on the property table -/

theorem set_entry_of_find_entry (cat : Category) (name : CppString) (a : PropertyArray)
    (ha : a.category = cat) (es : List PropertyEntry) (i : Nat)
    (h : find_entry cat name es = some i) : set_entry es i a = upsert name a es := by
  induction es generalizing i with
  | nil => simp [find_entry] at h
  | cons e es ih =>
    unfold find_entry at h
    unfold upsert
    rw [ha]
    by_cases hc : e.name = name ∧ e.array.category = cat
    · rw [if_pos hc] at h
      rw [if_pos hc]
      cases h
      rfl
    · rw [if_neg hc] at h
      rw [if_neg hc]
      cases hf : find_entry cat name es with
      | none => simp [hf] at h
      | some j =>
        simp [hf] at h
        subst h
        show e :: set_entry es j a = _
        rw [ih j hf]

theorem upsert_of_find_entry_none (cat : Category) (name : CppString) (a : PropertyArray)
    (ha : a.category = cat) (es : List PropertyEntry)
    (h : find_entry cat name es = none) : upsert name a es = es ++ [⟨name, a⟩] := by
  induction es with
  | nil => rfl
  | cons e es ih =>
    unfold find_entry at h
    unfold upsert
    rw [ha]
    by_cases hc : e.name = name ∧ e.array.category = cat
    · rw [if_pos hc] at h
      cases h
    · rw [if_neg hc] at h
      rw [if_neg hc]
      cases hf : find_entry cat name es with
      | none => rw [ih hf]; rfl
      | some j => simp [hf] at h

theorem set_entry_append_length (es : List PropertyEntry) (name : CppString)
    (d a : PropertyArray) :
    set_entry (es ++ [⟨name, d⟩]) es.length a = es ++ [⟨name, a⟩] := by
  induction es with
  | nil => rfl
  | cons e es ih =>
    show e :: set_entry (es ++ [⟨name, d⟩]) es.length a = _
    rw [ih]
    rfl

theorem add_properties_step_eq (T : Type) [PropertyType T] (cloud : PointCloud)
    (p : GenericProperty T) :
    add_properties_step T cloud p
      = ⟨cloud.n_vertices, upsert p.row.name p.row.array cloud.properties⟩ := by
  have hcat : (PropertyType.toArray p.vector).category = PropertyType.category T :=
    PropertyType.category_toArray p.vector
  cases hf : find_entry (PropertyType.category T) (add_properties_name p.name) cloud.properties with
  | none =>
    have h1 : add_properties_step T cloud p = ⟨cloud.n_vertices,
        set_entry (cloud.properties ++ [⟨add_properties_name p.name,
          PropertyType.toArray (List.replicate cloud.n_vertices (PropertyType.default : T))⟩])
          cloud.properties.length (PropertyType.toArray p.vector)⟩ := by
      simp [add_properties_step, PointCloud.vertex_property, PointCloud.get_vertex_property, hf,
        Property.assign]
    rw [h1, set_entry_append_length]
    show _ = PointCloud.mk _ (upsert (add_properties_name p.name) (PropertyType.toArray p.vector) _)
    rw [upsert_of_find_entry_none _ _ _ hcat _ hf]
  | some i =>
    have h1 : add_properties_step T cloud p = ⟨cloud.n_vertices,
        set_entry cloud.properties i (PropertyType.toArray p.vector)⟩ := by
      simp [add_properties_step, PointCloud.vertex_property, PointCloud.get_vertex_property, hf,
        Property.assign]
    rw [h1, set_entry_of_find_entry _ _ _ hcat _ _ hf]
    rfl

theorem add_properties_eq (T : Type) [PropertyType T] (properties : List (GenericProperty T))
    (cloud : PointCloud) :
    add_properties T cloud properties
      = ⟨cloud.n_vertices, install (properties.map GenericProperty.row) cloud.properties⟩ := by
  unfold add_properties install
  induction properties generalizing cloud with
  | nil => rfl
  | cons p ps ih =>
    rw [List.foldl_cons, ih, add_properties_step_eq]
    rfl

theorem install_append (r1 r2 table : List PropertyEntry) :
    install (r1 ++ r2) table = install r2 (install r1 table) := by
  unfold install
  rw [List.foldl_append]

/-! ## Lemmas on `load_ply` -/

theorem load_ply_install_cloud (elements : List Element) (cloud : PointCloud)
    (cerr : List CppString) :
    (load_ply_install elements (cloud, cerr)).1
      = ⟨cloud.n_vertices, install (vertex_rows elements) cloud.properties⟩ := by
  induction elements generalizing cloud cerr with
  | nil => rfl
  | cons e es ih =>
    unfold load_ply_install vertex_rows
    by_cases h : e.name = "vertex".toList
    · rw [if_pos h, if_pos h]
      simp only [add_properties_eq]
      rw [ih]
      simp only [Element.rows, install_append]
    · rw [if_neg h, if_neg h]
      split_ifs
      · exact ih _ _
      · exact ih _ _
      · exact ih _ _

theorem load_ply_resize_first (pre post : List Element) (e : Element) (cloud : PointCloud)
    (hpre : ∀ x ∈ pre, x.name ≠ "vertex".toList) (he : e.name = "vertex".toList) :
    load_ply_resize (pre ++ e :: post) cloud = cloud.resize (e.num_instances % 2 ^ 32) := by
  induction pre with
  | nil =>
    show load_ply_resize (e :: post) cloud = _
    unfold load_ply_resize
    rw [if_pos he]
  | cons x xs ih =>
    have hx : x.name ≠ "vertex".toList := hpre x (List.mem_cons_self _ _)
    have hxs : ∀ y ∈ xs, y.name ≠ "vertex".toList :=
      fun y hy => hpre y (List.mem_cons_of_mem _ hy)
    show load_ply_resize (x :: (xs ++ e :: post)) cloud = _
    unfold load_ply_resize
    rw [if_neg hx]
    exact ih hxs

theorem load_ply_resize_filter (elements : List Element) (cloud : PointCloud) :
    load_ply_resize (elements.filter fun e => e.name = "vertex".toList) cloud
      = load_ply_resize elements cloud := by
  induction elements with
  | nil => rfl
  | cons e es ih =>
    by_cases h : e.name = "vertex".toList
    · rw [List.filter_cons_of_pos (by simpa using h)]
      unfold load_ply_resize
      rw [if_pos h, if_pos h]
    · rw [List.filter_cons_of_neg (by simpa using h), ih]
      conv_rhs => unfold load_ply_resize
      rw [if_neg h]

theorem vertex_rows_filter (elements : List Element) :
    vertex_rows (elements.filter fun e => e.name = "vertex".toList) = vertex_rows elements := by
  induction elements with
  | nil => rfl
  | cons e es ih =>
    by_cases h : e.name = "vertex".toList
    · rw [List.filter_cons_of_pos (by simpa using h)]
      unfold vertex_rows
      rw [if_pos h, if_pos h, ih]
    · rw [List.filter_cons_of_neg (by simpa using h), ih]
      conv_rhs => unfold vertex_rows
      rw [if_neg h]

theorem load_ply_of_read (reader : PlyReader) (file_name : CppString) (cloud : PointCloud)
    (elements : List Element) (h : reader.read file_name = (true, elements)) :
    (load_ply reader file_name cloud).ok = true ∧
    (load_ply reader file_name cloud).cloud
      = ⟨(load_ply_resize elements cloud).n_vertices,
          install (vertex_rows elements) (load_ply_resize elements cloud).properties⟩ := by
  unfold load_ply
  rw [h]
  exact ⟨rfl, load_ply_install_cloud _ _ _⟩

/-! ## Lemmas on lookups in the property table -/

theorem lookup_upsert (cat : Category) (name name' : CppString) (a : PropertyArray)
    (es : List PropertyEntry) :
    lookup cat name (upsert name' a es)
      = if name' = name ∧ a.category = cat then some a else lookup cat name es := by
  induction es with
  | nil => simp [upsert, lookup]
  | cons e es ih =>
    unfold upsert
    by_cases hc : e.name = name' ∧ e.array.category = a.category
    · rw [if_pos hc]
      obtain ⟨h1, h2⟩ := hc
      unfold lookup
      simp only [h1, h2]
      split_ifs <;> rfl
    · rw [if_neg hc]
      unfold lookup
      rw [ih]
      by_cases hd : e.name = name ∧ e.array.category = cat
      · rw [if_pos hd, if_pos hd]
        obtain ⟨h1, h2⟩ := hd
        have : ¬ (name' = name ∧ a.category = cat) := by
          rintro ⟨h3, h4⟩
          exact hc ⟨h1.trans h3.symm, h2.trans h4.symm⟩
        rw [if_neg this]
      · rw [if_neg hd, if_neg hd]

theorem lookup_install_of_not_mem (cat : Category) (name : CppString)
    (rows : List PropertyEntry) (table : List PropertyEntry)
    (h : name ∉ rows.map PropertyEntry.name) :
    lookup cat name (install rows table) = lookup cat name table := by
  unfold install
  induction rows generalizing table with
  | nil => rfl
  | cons r rs ih =>
    rw [List.map_cons, List.mem_cons, not_or] at h
    rw [List.foldl_cons, ih _ h.2, lookup_upsert]
    have : ¬ (r.name = name ∧ r.array.category = cat) := fun h2 => h.1 h2.1.symm
    rw [if_neg this]

theorem lookup_install_of_mem (rows : List PropertyEntry) (table : List PropertyEntry)
    (hnodup : (rows.map PropertyEntry.name).Nodup) (r : PropertyEntry) (hr : r ∈ rows) :
    lookup r.array.category r.name (install rows table) = some r.array := by
  induction rows generalizing table with
  | nil => cases hr
  | cons q qs ih =>
    rw [List.map_cons, List.nodup_cons] at hnodup
    have hstep : install (q :: qs) table = install qs (upsert q.name q.array table) := rfl
    rw [hstep]
    rcases List.mem_cons.1 hr with rfl | hmem
    · rw [lookup_install_of_not_mem _ _ _ _ hnodup.1, lookup_upsert]
      simp
    · exact ih _ hnodup.2 hmem

theorem lookup_of_find_entry (cat : Category) (name : CppString) (es : List PropertyEntry) :
    (find_entry cat name es).map (fun i => es[i]?.map PropertyEntry.array)
      = (lookup cat name es).map some := by
  induction es with
  | nil => rfl
  | cons e es ih =>
    unfold find_entry lookup
    by_cases hc : e.name = name ∧ e.array.category = cat
    · rw [if_pos hc, if_pos hc]
      simp
    · rw [if_neg hc, if_neg hc, ← ih]
      cases find_entry cat name es <;> simp

theorem lookup_category (cat : Category) (name : CppString) (es : List PropertyEntry)
    (a : PropertyArray) (h : lookup cat name es = some a) : a.category = cat := by
  induction es with
  | nil => cases h
  | cons e es ih =>
    unfold lookup at h
    by_cases hc : e.name = name ∧ e.array.category = cat
    · rw [if_pos hc] at h
      cases h
      exact hc.2
    · rw [if_neg hc] at h
      exact ih h

theorem values_eq_lookup (T : Type) [PropertyType T] (cloud : PointCloud) (name : CppString) :
    cloud.values T name
      = (lookup (PropertyType.category T) name cloud.properties).bind PropertyType.ofArray := by
  have h := lookup_of_find_entry (PropertyType.category T) name cloud.properties
  unfold PointCloud.values PointCloud.get_vertex_property
  cases hf : find_entry (PropertyType.category T) name cloud.properties with
  | none =>
    rw [hf] at h
    cases hl : lookup (PropertyType.category T) name cloud.properties with
    | none => rfl
    | some a => rw [hl] at h; cases h
  | some i =>
    rw [hf] at h
    cases hl : lookup (PropertyType.category T) name cloud.properties with
    | none => rw [hl] at h; cases h
    | some a =>
      rw [hl] at h
      have hi : cloud.properties[i]?.map PropertyEntry.array = some a := by
        simpa using h
      have hcat := lookup_category _ _ _ _ hl
      have hsome := PropertyType.ofArray_isSome (T := T) a hcat
      obtain ⟨v, hv⟩ := Option.isSome_iff_exists.1 hsome
      cases he : cloud.properties[i]? with
      | none => rw [he] at hi; cases hi
      | some e =>
        rw [he] at hi
        have hea : e.array = a := by simpa using hi
        simp [Property.vector, he, hea, hv]

theorem values_install_row (T : Type) [PropertyType T] (n : Nat)
    (rows table : List PropertyEntry) (hnodup : (rows.map PropertyEntry.name).Nodup)
    (p : GenericProperty T) (hp : p.row ∈ rows) :
    (PointCloud.mk n (install rows table)).values T (add_properties_name p.name)
      = some p.vector := by
  have h := lookup_install_of_mem rows table hnodup p.row hp
  have hcat : p.row.array.category = PropertyType.category T :=
    PropertyType.category_toArray p.vector
  rw [hcat] at h
  rw [values_eq_lookup]
  show (lookup (PropertyType.category T) p.row.name (install rows table)).bind _ = _
  rw [h]
  exact PropertyType.ofArray_toArray p.vector

theorem Element.rows_names (e : Element) :
    e.rows.map PropertyEntry.name = e.installed_names := by
  simp [Element.rows, Element.installed_names, GenericProperty.row, Function.comp_def]

theorem vertex_rows_single (elements : List Element) (e : Element)
    (h : elements.filter (fun x => x.name = "vertex".toList) = [e]) :
    vertex_rows elements = e.rows := by
  have he : e.name = "vertex".toList := by
    have hmem : e ∈ elements.filter (fun x => x.name = "vertex".toList) := by
      rw [h]
      exact List.mem_singleton_self e
    simpa using (List.mem_filter.1 hmem).2
  rw [← vertex_rows_filter, h]
  unfold vertex_rows
  rw [if_pos he]
  exact List.append_nil _

/-! ## Lemmas on `collect_properties` -/

theorem collect_properties_step_eq (T : Type) [PropertyType T] (cloud : PointCloud)
    (properties : List (GenericProperty T)) (name : CppString) :
    collect_properties_step T cloud properties name
      = properties ++ ((cloud.values T name).map fun v =>
          (⟨"vertex".toList, collect_properties_name name, v⟩ : GenericProperty T)).toList := by
  unfold collect_properties_step PointCloud.values
  cases cloud.get_vertex_property T name with
  | none => simp
  | some prop => rfl

theorem collect_properties_eq (T : Type) [PropertyType T] (cloud : PointCloud)
    (properties : List (GenericProperty T)) :
    collect_properties T cloud properties
      = properties ++ cloud.vertex_properties.filterMap fun name =>
          (cloud.values T name).map fun v =>
            (⟨"vertex".toList, collect_properties_name name, v⟩ : GenericProperty T) := by
  unfold collect_properties
  induction cloud.vertex_properties generalizing properties with
  | nil => simp
  | cons name names ih =>
    rw [List.foldl_cons, ih, collect_properties_step_eq, List.filterMap_cons]
    cases cloud.values T name <;> simp

theorem starts_with_iff (s pat : CppString) : starts_with s pat = true ↔ pat <+: s := by
  induction pat generalizing s with
  | nil => cases s <;> simp [starts_with]
  | cons d pat ih =>
    cases s with
    | nil => simp [starts_with]
    | cons c s =>
      simp only [starts_with, Bool.and_eq_true, beq_iff_eq, ih, List.cons_prefix_cons]
      constructor
      · rintro ⟨h1, h2⟩
        exact ⟨h1.symm, h2⟩
      · rintro ⟨h1, h2⟩
        exact ⟨h1.symm, h2⟩

theorem find_from_eq_none_iff (s pat : CppString) (pos : Nat) :
    find_from s pat pos = none ↔ ¬ pat <:+: s := by
  induction s generalizing pos with
  | nil =>
    unfold find_from
    by_cases h : starts_with [] pat = true
    · rw [if_pos h]
      have h2 := (starts_with_iff [] pat).1 h
      simp [List.prefix_nil.1 h2]
    · rw [if_neg h]
      have h2 : ¬ pat <+: [] := fun h3 => h ((starts_with_iff [] pat).2 h3)
      rw [List.prefix_nil] at h2
      simpa [List.infix_nil] using h2
  | cons c s ih =>
    unfold find_from
    rw [List.infix_cons_iff]
    by_cases h : starts_with (c :: s) pat = true
    · rw [if_pos h]
      have h2 := (starts_with_iff (c :: s) pat).1 h
      simp [h2]
    · rw [if_neg h, ih]
      have h2 : ¬ pat <+: c :: s := fun h3 => h ((starts_with_iff (c :: s) pat).2 h3)
      simp [h2]

theorem add_properties_name_of_not_infix (name : CppString)
    (h : ¬ "v:".toList <:+: name) : add_properties_name name = "v:".toList ++ name := by
  unfold add_properties_name find
  rw [if_pos ((find_from_eq_none_iff name _ 0).2 h)]

theorem name_round_trip (name rest : CppString) (h1 : name = "v:".toList ++ rest)
    (h2 : ¬ "v:".toList <:+: rest) :
    add_properties_name (collect_properties_name name) = name := by
  subst h1
  have h3 : collect_properties_name ("v:".toList ++ rest) = rest :=
    collect_properties_name_marker rest
  rw [h3, add_properties_name_of_not_infix rest h2]

theorem rows_of_collect (T : Type) [PropertyType T] (cloud : PointCloud)
    (hnames : ∀ e ∈ cloud.properties,
      add_properties_name (collect_properties_name e.name) = e.name) :
    (collect_properties T cloud []).map GenericProperty.row
      = carried_rows (PropertyType.category T) cloud.properties cloud.properties := by
  rw [collect_properties_eq, List.nil_append, List.map_filterMap]
  unfold PointCloud.vertex_properties carried_rows
  rw [List.filterMap_map]
  apply List.filterMap_congr
  intro e he
  show Option.map GenericProperty.row ((cloud.values T e.name).map _) = _
  rw [values_eq_lookup]
  cases hl : lookup (PropertyType.category T) e.name cloud.properties with
  | none => rfl
  | some a =>
    have hcat := lookup_category _ _ _ _ hl
    obtain ⟨v, hv⟩ := Option.isSome_iff_exists.1 (PropertyType.ofArray_isSome (T := T) a hcat)
    have ha := PropertyType.toArray_of_ofArray a v hv
    show Option.map GenericProperty.row (Option.map _ (PropertyType.ofArray a)) = _
    rw [hv]
    show some (PropertyEntry.mk (add_properties_name (collect_properties_name e.name))
      (PropertyType.toArray v)) = some ⟨e.name, a⟩
    rw [hnames e he, ← ha]

theorem save_ply_element_rows (cloud : PointCloud)
    (hnames : ∀ e ∈ cloud.properties,
      add_properties_name (collect_properties_name e.name) = e.name) :
    (save_ply_element cloud).rows = all_carried_rows cloud.properties := by
  show (collect_properties vec3 cloud []).map GenericProperty.row ++
    ((collect_properties float cloud []).map GenericProperty.row ++
      ((collect_properties Int cloud []).map GenericProperty.row ++
        ((collect_properties (List Int) cloud []).map GenericProperty.row ++
          (collect_properties (List float) cloud []).map GenericProperty.row))) = _
  rw [rows_of_collect vec3 cloud hnames, rows_of_collect float cloud hnames,
    rows_of_collect Int cloud hnames, rows_of_collect (List Int) cloud hnames,
    rows_of_collect (List float) cloud hnames]
  rfl

theorem lookup_of_mem_carried_rows (cat : Category) (table es : List PropertyEntry)
    (r : PropertyEntry) (hr : r ∈ carried_rows cat table es) :
    lookup r.array.category r.name table = some r.array := by
  unfold carried_rows at hr
  obtain ⟨e, _, he⟩ := List.mem_filterMap.1 hr
  cases hl : lookup cat e.name table with
  | none => rw [hl] at he; cases he
  | some a =>
    rw [hl] at he
    have hra : (⟨e.name, a⟩ : PropertyEntry) = r := by simpa using he
    subst hra
    show lookup a.category e.name table = some a
    rw [lookup_category _ _ _ _ hl, hl]

theorem lookup_of_mem_all_carried_rows (table : List PropertyEntry) (r : PropertyEntry)
    (hr : r ∈ all_carried_rows table) :
    lookup r.array.category r.name table = some r.array := by
  unfold all_carried_rows at hr
  simp only [List.mem_append] at hr
  rcases hr with h | h | h | h | h <;> exact lookup_of_mem_carried_rows _ _ _ _ h

theorem lookup_mem (cat : Category) (name : CppString) (es : List PropertyEntry)
    (a : PropertyArray) (h : lookup cat name es = some a) : ⟨name, a⟩ ∈ es := by
  induction es with
  | nil => cases h
  | cons e es ih =>
    unfold lookup at h
    by_cases hc : e.name = name ∧ e.array.category = cat
    · rw [if_pos hc] at h
      cases h
      rw [← hc.1]
      exact List.mem_cons_self _ _
    · rw [if_neg hc] at h
      exact List.mem_cons_of_mem _ (ih h)

theorem mem_carried_rows_of_lookup (cat : Category) (name : CppString)
    (table : List PropertyEntry) (a : PropertyArray) (h : lookup cat name table = some a) :
    ⟨name, a⟩ ∈ carried_rows cat table table := by
  unfold carried_rows
  refine List.mem_filterMap.2 ⟨⟨name, a⟩, lookup_mem cat name table a h, ?_⟩
  show (lookup cat name table).map _ = _
  rw [h]
  rfl

theorem mem_all_carried_rows_of_lookup (cat : Category) (name : CppString)
    (table : List PropertyEntry) (a : PropertyArray) (h : lookup cat name table = some a) :
    ⟨name, a⟩ ∈ all_carried_rows table := by
  have hmem := mem_carried_rows_of_lookup cat name table a h
  unfold all_carried_rows
  simp only [List.mem_append]
  cases cat
  · exact Or.inl hmem
  · exact Or.inr (Or.inl hmem)
  · exact Or.inr (Or.inr (Or.inl hmem))
  · exact Or.inr (Or.inr (Or.inr (Or.inl hmem)))
  · exact Or.inr (Or.inr (Or.inr (Or.inr hmem)))

theorem lookup_isSome_of_mem (es : List PropertyEntry) (e : PropertyEntry) (he : e ∈ es) :
    ∃ a, lookup e.array.category e.name es = some a := by
  induction es with
  | nil => cases he
  | cons q qs ih =>
    unfold lookup
    by_cases hc : q.name = e.name ∧ q.array.category = e.array.category
    · rw [if_pos hc]
      exact ⟨q.array, rfl⟩
    · rw [if_neg hc]
      rcases List.mem_cons.1 he with rfl | hmem
      · exact absurd ⟨rfl, rfl⟩ hc
      · exact ih hmem

theorem lookup_install_consistent (source rows : List PropertyEntry)
    (hrows : ∀ r ∈ rows, lookup r.array.category r.name source = some r.array)
    (cat : Category) (name : CppString) (table : List PropertyEntry) :
    lookup cat name (install rows table)
      = if ∃ r ∈ rows, r.name = name ∧ r.array.category = cat then lookup cat name source
        else lookup cat name table := by
  induction rows generalizing table with
  | nil => simp [install]
  | cons r rs ih =>
    have hstep : install (r :: rs) table = install rs (upsert r.name r.array table) := rfl
    rw [hstep, ih (fun x hx => hrows x (List.mem_cons_of_mem _ hx)), lookup_upsert]
    by_cases h1 : ∃ x ∈ rs, x.name = name ∧ x.array.category = cat
    · have h2 : ∃ x ∈ r :: rs, x.name = name ∧ x.array.category = cat := by
        obtain ⟨x, hx, hx2⟩ := h1
        exact ⟨x, List.mem_cons_of_mem _ hx, hx2⟩
      rw [if_pos h1, if_pos h2]
    · rw [if_neg h1]
      by_cases h3 : r.name = name ∧ r.array.category = cat
      · have h2 : ∃ x ∈ r :: rs, x.name = name ∧ x.array.category = cat :=
          ⟨r, List.mem_cons_self _ _, h3⟩
        rw [if_pos h3, if_pos h2, ← h3.1, ← h3.2]
        exact (hrows r (List.mem_cons_self _ _)).symm
      · have h2 : ¬ ∃ x ∈ r :: rs, x.name = name ∧ x.array.category = cat := by
          rintro ⟨x, hx, hx2⟩
          rcases List.mem_cons.1 hx with rfl | hmem
          · exact h3 hx2
          · exact h1 ⟨x, hmem, hx2⟩
        rw [if_neg h3, if_neg h2]

theorem mem_names_upsert (name x : CppString) (a : PropertyArray) (es : List PropertyEntry) :
    x ∈ (upsert name a es).map PropertyEntry.name
      ↔ x ∈ es.map PropertyEntry.name ∨ x = name := by
  induction es with
  | nil => simp [upsert]
  | cons q qs ih =>
    unfold upsert
    by_cases hc : q.name = name ∧ q.array.category = a.category
    · rw [if_pos hc]
      simp only [List.map_cons, List.mem_cons]
      constructor
      · rintro (h | h)
        · exact Or.inl (Or.inl h)
        · exact Or.inl (Or.inr h)
      · rintro ((h | h) | h)
        · exact Or.inl h
        · exact Or.inr h
        · exact Or.inl (h.trans hc.1.symm)
    · rw [if_neg hc]
      simp only [List.map_cons, List.mem_cons, ih]
      tauto

theorem mem_names_install (x : CppString) (rows table : List PropertyEntry) :
    x ∈ (install rows table).map PropertyEntry.name
      ↔ x ∈ table.map PropertyEntry.name ∨ x ∈ rows.map PropertyEntry.name := by
  induction rows generalizing table with
  | nil => simp [install]
  | cons r rs ih =>
    have hstep : install (r :: rs) table = install rs (upsert r.name r.array table) := rfl
    rw [hstep, ih, mem_names_upsert]
    simp only [List.map_cons, List.mem_cons]
    tauto

theorem mem_names_all_carried_rows (x : CppString) (table : List PropertyEntry) :
    x ∈ (all_carried_rows table).map PropertyEntry.name ↔ x ∈ table.map PropertyEntry.name := by
  constructor
  · intro h
    obtain ⟨r, hr, rfl⟩ := List.mem_map.1 h
    have hl := lookup_of_mem_all_carried_rows table r hr
    exact List.mem_map_of_mem PropertyEntry.name (lookup_mem _ _ _ _ hl)
  · intro h
    obtain ⟨e, he, rfl⟩ := List.mem_map.1 h
    obtain ⟨a, ha⟩ := lookup_isSome_of_mem table e he
    have hmem := mem_all_carried_rows_of_lookup e.array.category e.name table a ha
    exact List.mem_map.2 ⟨⟨e.name, a⟩, hmem, rfl⟩

theorem save_ply_of_vertices (writer : PlyWriter) (file_name : CppString)
    (cloud : PointCloud) (binary : Bool) (h : 0 < cloud.n_vertices) :
    (save_ply writer file_name (some cloud) binary).writes
      = [⟨file_name, [save_ply_element cloud], [], binary⟩] := by
  have h0 : ¬ cloud.n_vertices = 0 := by omega
  unfold save_ply
  simp only [h0, if_false, List.nil_append]

theorem load_saved_element (reader : PlyReader) (file_name : CppString) (cloud : PointCloud)
    (h32 : cloud.n_vertices < 2 ^ 32)
    (hnames : ∀ e ∈ cloud.properties,
      add_properties_name (collect_properties_name e.name) = e.name)
    (hread : reader.read file_name = (true, [save_ply_element cloud])) :
    (load_ply reader file_name PointCloud.empty).ok = true ∧
    (load_ply reader file_name PointCloud.empty).cloud
      = ⟨cloud.n_vertices, install (all_carried_rows cloud.properties) []⟩ := by
  obtain ⟨hok, hcloud⟩ := load_ply_of_read reader file_name PointCloud.empty _ hread
  refine ⟨hok, ?_⟩
  have hresize : load_ply_resize [save_ply_element cloud] PointCloud.empty
      = ⟨cloud.n_vertices, []⟩ := by
    have h1 := load_ply_resize_first [] [] (save_ply_element cloud) PointCloud.empty
      (fun x hx => by cases hx) rfl
    rw [List.nil_append] at h1
    rw [h1]
    show PointCloud.mk (cloud.n_vertices % 2 ^ 32) [] = _
    rw [Nat.mod_eq_of_lt h32]
  have hrows : vertex_rows [save_ply_element cloud] = all_carried_rows cloud.properties := by
    rw [vertex_rows_single [save_ply_element cloud] (save_ply_element cloud) rfl]
    exact save_ply_element_rows cloud hnames
  rw [hcloud, hresize, hrows]

/-! ## Claims -/

/-- C1, as stated, fails. The cloud `unmarked_cloud` has one vertex and the float
property "quality"; the writer is given one vertex element and the reader
returns that element, yet the cloud loaded into the empty cloud has no
property "quality": it has "v:quality". -/
theorem save_load_round_trip_unmarked :
    0 < unmarked_cloud.n_vertices ∧
    (save_ply accepting_writer sample_file (some unmarked_cloud) true).ok = true ∧
    (save_ply accepting_writer sample_file (some unmarked_cloud) true).writes
      = [⟨sample_file, [save_ply_element unmarked_cloud], [], true⟩] ∧
    (echo_reader (save_ply accepting_writer sample_file (some unmarked_cloud) true).writes).read
      sample_file = (true, [save_ply_element unmarked_cloud]) ∧
    unmarked_cloud.vertex_properties = ["quality".toList] ∧
    unmarked_cloud.values float "quality".toList = some [⟨7⟩] ∧
    (load_ply (echo_reader (save_ply accepting_writer sample_file (some unmarked_cloud) true).writes)
      sample_file PointCloud.empty).cloud.vertex_properties = ["v:quality".toList] ∧
    (load_ply (echo_reader (save_ply accepting_writer sample_file (some unmarked_cloud) true).writes)
      sample_file PointCloud.empty).cloud.values float "quality".toList = none := by
  decide

/-- C1, amended. Take a cloud with at least one and fewer than 2^32 vertices
whose property names each start with "v:" and do not contain "v:" after that.
If the read of the codec returns the element sequence its write was given,
then `save_ply` followed by `load_ply` into the empty cloud succeeds and gives
a cloud with the same vertex count, the same set of property names, and under
every name the same vector of the same type. -/
theorem save_load_round_trip (writer : PlyWriter) (reader : PlyReader)
    (file_name : CppString) (cloud : PointCloud) (binary : Bool)
    (hn : 0 < cloud.n_vertices) (h32 : cloud.n_vertices < 2 ^ 32)
    (hnames : ∀ name ∈ cloud.vertex_properties,
      ∃ rest, name = "v:".toList ++ rest ∧ ¬ "v:".toList <:+: rest)
    (hcodec : ∀ call ∈ (save_ply writer file_name (some cloud) binary).writes,
      reader.read call.file_name = (true, call.elements)) :
    (load_ply reader file_name PointCloud.empty).ok = true ∧
    (load_ply reader file_name PointCloud.empty).cloud.n_vertices = cloud.n_vertices ∧
    (∀ name : CppString,
      name ∈ (load_ply reader file_name PointCloud.empty).cloud.vertex_properties
        ↔ name ∈ cloud.vertex_properties) ∧
    ∀ (T : Type) [PropertyType T] (name : CppString),
      (load_ply reader file_name PointCloud.empty).cloud.values T name
        = cloud.values T name := by
  have hread : reader.read file_name = (true, [save_ply_element cloud]) := by
    apply hcodec ⟨file_name, [save_ply_element cloud], [], binary⟩
    rw [save_ply_of_vertices writer file_name cloud binary hn]
    exact List.mem_singleton_self _
  have hnames2 : ∀ e ∈ cloud.properties,
      add_properties_name (collect_properties_name e.name) = e.name := by
    intro e he
    obtain ⟨rest, h1, h2⟩ := hnames e.name (List.mem_map_of_mem _ he)
    exact name_round_trip e.name rest h1 h2
  obtain ⟨hok, hcloud⟩ := load_saved_element reader file_name cloud h32 hnames2 hread
  rw [hcloud]
  refine ⟨hok, rfl, ?_, ?_⟩
  · intro name
    show name ∈ (install (all_carried_rows cloud.properties) []).map PropertyEntry.name ↔ _
    rw [mem_names_install, mem_names_all_carried_rows]
    simp [PointCloud.vertex_properties]
  · intro T _ name
    rw [values_eq_lookup, values_eq_lookup]
    show (lookup _ name (install (all_carried_rows cloud.properties) [])).bind _ = _
    rw [lookup_install_consistent cloud.properties _
      (lookup_of_mem_all_carried_rows cloud.properties)]
    by_cases h : ∃ r ∈ all_carried_rows cloud.properties,
        r.name = name ∧ r.array.category = PropertyType.category T
    · rw [if_pos h]
    · rw [if_neg h]
      cases hl : lookup (PropertyType.category T) name cloud.properties with
      | none => rfl
      | some a =>
        exfalso
        exact h ⟨⟨name, a⟩, mem_all_carried_rows_of_lookup _ _ _ _ hl, rfl,
          lookup_category _ _ _ _ hl⟩

/-- The amended round trip on `sample_cloud`: two vertices and the properties
"v:label", "v:point" and "v:quality". -/
theorem save_load_round_trip_witness :
    0 < sample_cloud.n_vertices ∧ sample_cloud.n_vertices < 2 ^ 32 ∧
    (load_ply (echo_reader (save_ply accepting_writer sample_file (some sample_cloud) false).writes)
      sample_file PointCloud.empty).ok = true ∧
    (load_ply (echo_reader (save_ply accepting_writer sample_file (some sample_cloud) false).writes)
      sample_file PointCloud.empty).cloud.n_vertices = 2 ∧
    (load_ply (echo_reader (save_ply accepting_writer sample_file (some sample_cloud) false).writes)
      sample_file PointCloud.empty).cloud.vertex_properties
        = ["v:point".toList, "v:quality".toList, "v:label".toList] ∧
    (load_ply (echo_reader (save_ply accepting_writer sample_file (some sample_cloud) false).writes)
      sample_file PointCloud.empty).cloud.values float "v:quality".toList = some [⟨7⟩, ⟨8⟩] := by
  have h := save_load_round_trip accepting_writer
    (echo_reader (save_ply accepting_writer sample_file (some sample_cloud) false).writes)
    sample_file sample_cloud false (by decide) (by decide)
    (by
      intro name hname
      have hcases : name = "v:label".toList ∨ name = "v:point".toList ∨
          name = "v:quality".toList := by
        simpa [sample_cloud, PointCloud.vertex_properties] using hname
      rcases hcases with rfl | rfl | rfl
      · exact ⟨"label".toList, rfl, by decide⟩
      · exact ⟨"point".toList, rfl, by decide⟩
      · exact ⟨"quality".toList, rfl, by decide⟩)
    (by decide)
  exact ⟨by decide, by decide, h.1, h.2.1, by decide, h.2.2.2 float _⟩


/-- C3. The name `collect_properties` gives a carrier is the internal name
without its first two characters when the internal name begins with "v:", and
the internal name itself otherwise; "v:v:x" gives "v:x" and "v:" gives the
empty string. -/
theorem collect_properties_name_spec :
    (∀ name : CppString, collect_properties_name name
      = if "v:".toList <+: name then name.drop 2 else name) ∧
    collect_properties_name "v:v:x".toList = "v:x".toList ∧
    collect_properties_name "v:".toList = [] := by
  refine ⟨fun name => ?_, by decide, by decide⟩
  by_cases h : "v:".toList <+: name
  · rw [if_pos h]
    obtain ⟨rest, rfl⟩ := (marker_isPrefix_iff name).1 h
    exact collect_properties_name_marker rest
  · rw [if_neg h]
    exact collect_properties_name_other name (fun h2 => h ((marker_isPrefix_iff name).2 h2))

/-- C4. When the codec returns a sequence with an element named "vertex" whose
instance count is below 2^32, `load_ply` succeeds and the vertex count of the
cloud is the instance count of the first such element, wherever it stands in
the sequence and whatever the cloud was before. -/
theorem load_ply_vertex_count (reader : PlyReader) (file_name : CppString)
    (cloud : PointCloud) (pre post : List Element) (e : Element)
    (hread : reader.read file_name = (true, pre ++ e :: post))
    (hpre : ∀ x ∈ pre, x.name ≠ "vertex".toList) (he : e.name = "vertex".toList)
    (h32 : e.num_instances < 2 ^ 32) :
    (load_ply reader file_name cloud).ok = true ∧
    (load_ply reader file_name cloud).cloud.n_vertices = e.num_instances := by
  obtain ⟨hok, hcloud⟩ := load_ply_of_read reader file_name cloud _ hread
  refine ⟨hok, ?_⟩
  rw [hcloud, load_ply_resize_first pre post e cloud hpre he]
  exact Nat.mod_eq_of_lt h32

/-- C6. When the codec reads a sequence successfully, `load_ply` returns success
and leaves the same cloud as it does for the sequence without its elements not
named "vertex". -/
theorem load_ply_ignores_other_elements (reader reader' : PlyReader)
    (file_name : CppString) (cloud : PointCloud) (elements : List Element)
    (hread : reader.read file_name = (true, elements))
    (hread' : reader'.read file_name
      = (true, elements.filter fun e => e.name = "vertex".toList)) :
    (load_ply reader file_name cloud).ok = true ∧
    (load_ply reader' file_name cloud).ok = true ∧
    (load_ply reader file_name cloud).cloud = (load_ply reader' file_name cloud).cloud := by
  obtain ⟨hok, hcloud⟩ := load_ply_of_read reader file_name cloud _ hread
  obtain ⟨hok', hcloud'⟩ := load_ply_of_read reader' file_name cloud _ hread'
  refine ⟨hok, hok', ?_⟩
  rw [hcloud, hcloud', load_ply_resize_filter, vertex_rows_filter]

/-- C7. The function `load_ply` returns failure exactly when the read of the
codec reports failure, and then the cloud is the one it was given. -/
theorem load_ply_failure (reader : PlyReader) (file_name : CppString) (cloud : PointCloud) :
    ((load_ply reader file_name cloud).ok = false ↔ (reader.read file_name).1 = false) ∧
    ((load_ply reader file_name cloud).ok = false →
      (load_ply reader file_name cloud).cloud = cloud) := by
  unfold load_ply
  rcases hr : reader.read file_name with ⟨ok, elements⟩
  cases ok <;> simp

/-- C8. With a null cloud or a cloud of zero vertices, `save_ply` returns
failure and calls the writer of the codec not once, whatever the binary flag. -/
theorem save_ply_empty (writer : PlyWriter) (file_name : CppString)
    (cloud : Option PointCloud) (binary : Bool)
    (h : cloud = none ∨ ∃ c, cloud = some c ∧ c.n_vertices = 0) :
    (save_ply writer file_name cloud binary).ok = false ∧
    (save_ply writer file_name cloud binary).writes = [] := by
  rcases h with rfl | ⟨c, rfl, hc⟩
  · exact ⟨rfl, rfl⟩
  · unfold save_ply
    simp only [hc, if_true, and_self]

/-- C9. For a cloud with at least one vertex and either value of the binary
flag, `save_ply` makes one write call: to the path of the caller, with one
element named "vertex" whose instance count is the vertex count of the cloud,
the empty comment and the binary flag of the caller; it returns what that call
returns. -/
theorem save_ply_delegates (writer : PlyWriter) (file_name : CppString)
    (cloud : PointCloud) (binary : Bool) (h : 0 < cloud.n_vertices) :
    (save_ply_element cloud).name = "vertex".toList ∧
    (save_ply_element cloud).num_instances = cloud.n_vertices ∧
    (save_ply writer file_name (some cloud) binary).writes
      = [⟨file_name, [save_ply_element cloud], [], binary⟩] ∧
    (save_ply writer file_name (some cloud) binary).ok
      = writer.write file_name [save_ply_element cloud] [] binary := by
  have h0 : ¬ cloud.n_vertices = 0 := by omega
  refine ⟨rfl, rfl, ?_, ?_⟩
  · unfold save_ply
    simp only [h0, if_false, List.nil_append]
  · unfold save_ply
    simp only [h0, if_false, List.nil_append]

/-- C2 (evaluation of the code). For the carrier name "av:b", which does not
start with "v:" but contains it, `add_properties` looks up and creates the
property under "av:b", not under "v:av:b": the test of line 46 asks whether
"v:" occurs anywhere in the name. -/
theorem add_properties_name_marker_inside :
    ¬ "v:".toList <+: "av:b".toList ∧
    add_properties_name "av:b".toList = "av:b".toList ∧
    add_properties_name "av:b".toList ≠ "v:".toList ++ "av:b".toList ∧
    (add_properties float PointCloud.empty
      [⟨"vertex".toList, "av:b".toList, [⟨1⟩]⟩]).vertex_properties = ["av:b".toList] := by
  decide

/-- C5. When the sequence read has one element named "vertex" and no two
properties of that element are stored under the same name, then after
`load_ply` every property of each of its five buckets is a vertex property of
the cloud, of the type of the bucket, under the name `add_properties` computes
for it, with the vector of the input, whatever the cloud held before. -/
theorem load_ply_installs_vertex_properties (reader : PlyReader) (file_name : CppString)
    (cloud : PointCloud) (elements : List Element) (e : Element)
    (hread : reader.read file_name = (true, elements))
    (hsingle : elements.filter (fun x => x.name = "vertex".toList) = [e])
    (hnames : e.installed_names.Nodup) :
    (∀ p ∈ e.vec3_properties, (load_ply reader file_name cloud).cloud.values vec3
      (add_properties_name p.name) = some p.vector) ∧
    (∀ p ∈ e.float_properties, (load_ply reader file_name cloud).cloud.values float
      (add_properties_name p.name) = some p.vector) ∧
    (∀ p ∈ e.int_properties, (load_ply reader file_name cloud).cloud.values Int
      (add_properties_name p.name) = some p.vector) ∧
    (∀ p ∈ e.int_list_properties, (load_ply reader file_name cloud).cloud.values (List Int)
      (add_properties_name p.name) = some p.vector) ∧
    (∀ p ∈ e.float_list_properties, (load_ply reader file_name cloud).cloud.values (List float)
      (add_properties_name p.name) = some p.vector) := by
  obtain ⟨_, hcloud⟩ := load_ply_of_read reader file_name cloud _ hread
  rw [hcloud, vertex_rows_single elements e hsingle]
  rw [← Element.rows_names] at hnames
  refine ⟨fun p hp => ?_, fun p hp => ?_, fun p hp => ?_, fun p hp => ?_, fun p hp => ?_⟩ <;>
    apply values_install_row _ _ _ _ hnames <;>
    simp only [Element.rows, List.mem_append, List.mem_map]
  · exact Or.inl ⟨p, hp, rfl⟩
  · exact Or.inr (Or.inl ⟨p, hp, rfl⟩)
  · exact Or.inr (Or.inr (Or.inl ⟨p, hp, rfl⟩))
  · exact Or.inr (Or.inr (Or.inr (Or.inl ⟨p, hp, rfl⟩)))
  · exact Or.inr (Or.inr (Or.inr (Or.inr ⟨p, hp, rfl⟩)))

/-- The vertex count is found behind a face element, in a cloud that had seven
vertices. -/
theorem load_ply_vertex_count_witness :
    scenario_reader.read sample_file = (true, [face_element] ++ scenario_element :: []) ∧
    (∀ x ∈ [face_element], x.name ≠ "vertex".toList) ∧
    scenario_element.name = "vertex".toList ∧ scenario_element.num_instances < 2 ^ 32 ∧
    (load_ply scenario_reader sample_file ⟨7, []⟩).ok = true ∧
    (load_ply scenario_reader sample_file ⟨7, []⟩).cloud.n_vertices = 3 :=
  ⟨rfl, by decide, rfl, by decide,
    load_ply_vertex_count scenario_reader sample_file ⟨7, []⟩ [face_element] []
      scenario_element rfl (by decide) rfl (by decide)⟩

/-- The scenario of the specification: the vertex element of three rows with
the vec3 property "point" and the float property "v:quality", loaded into the
empty cloud. -/
theorem load_ply_installs_vertex_properties_witness :
    scenario_reader.read sample_file = (true, [face_element, scenario_element]) ∧
    [face_element, scenario_element].filter (fun x => x.name = "vertex".toList)
      = [scenario_element] ∧
    scenario_element.installed_names.Nodup ∧
    (load_ply scenario_reader sample_file PointCloud.empty).cloud.values vec3 "v:point".toList
      = some [⟨⟨1⟩, ⟨2⟩, ⟨3⟩⟩, ⟨⟨4⟩, ⟨5⟩, ⟨6⟩⟩, ⟨⟨7⟩, ⟨8⟩, ⟨9⟩⟩] ∧
    (load_ply scenario_reader sample_file PointCloud.empty).cloud.values float
      "v:quality".toList = some [⟨10⟩, ⟨11⟩, ⟨12⟩] ∧
    (load_ply scenario_reader sample_file PointCloud.empty).cloud.n_vertices = 3 :=
  ⟨rfl, by decide, by decide,
    (load_ply_installs_vertex_properties scenario_reader sample_file PointCloud.empty
      [face_element, scenario_element] scenario_element rfl (by decide) (by decide)).1
      ⟨"vertex".toList, "point".toList, [⟨⟨1⟩, ⟨2⟩, ⟨3⟩⟩, ⟨⟨4⟩, ⟨5⟩, ⟨6⟩⟩, ⟨⟨7⟩, ⟨8⟩, ⟨9⟩⟩]⟩
      (by decide),
    (load_ply_installs_vertex_properties scenario_reader sample_file PointCloud.empty
      [face_element, scenario_element] scenario_element rfl (by decide) (by decide)).2.1
      ⟨"vertex".toList, "v:quality".toList, [⟨10⟩, ⟨11⟩, ⟨12⟩]⟩ (by decide),
    by decide⟩

/-- A face element next to the vertex element changes nothing. -/
theorem load_ply_ignores_other_elements_witness :
    scenario_reader.read sample_file = (true, [face_element, scenario_element]) ∧
    (echo_reader [⟨sample_file, [scenario_element], [], true⟩]).read sample_file
      = (true, [face_element, scenario_element].filter fun e => e.name = "vertex".toList) ∧
    (load_ply scenario_reader sample_file sample_cloud).ok = true ∧
    (load_ply (echo_reader [⟨sample_file, [scenario_element], [], true⟩]) sample_file
      sample_cloud).ok = true ∧
    (load_ply scenario_reader sample_file sample_cloud).cloud
      = (load_ply (echo_reader [⟨sample_file, [scenario_element], [], true⟩]) sample_file
          sample_cloud).cloud :=
  ⟨rfl, by decide,
    load_ply_ignores_other_elements scenario_reader
      (echo_reader [⟨sample_file, [scenario_element], [], true⟩]) sample_file sample_cloud
      [face_element, scenario_element] rfl (by decide)⟩

/-- A failed read leaves `sample_cloud` as it was. -/
theorem load_ply_failure_witness :
    (load_ply failing_reader sample_file sample_cloud).ok = false ∧
    (load_ply failing_reader sample_file sample_cloud).cloud = sample_cloud :=
  ⟨by decide, (load_ply_failure failing_reader sample_file sample_cloud).2 (by decide)⟩

/-- The null cloud and the empty cloud are both rejected without a write. -/
theorem save_ply_empty_witness :
    ((save_ply accepting_writer sample_file none false).ok = false ∧
      (save_ply accepting_writer sample_file none false).writes = []) ∧
    ((save_ply accepting_writer sample_file (some PointCloud.empty) true).ok = false ∧
      (save_ply accepting_writer sample_file (some PointCloud.empty) true).writes = []) :=
  ⟨save_ply_empty accepting_writer sample_file none false (Or.inl rfl),
    save_ply_empty accepting_writer sample_file (some PointCloud.empty) true
      (Or.inr ⟨PointCloud.empty, rfl, rfl⟩)⟩

/-- The write call made for `sample_cloud` in ASCII. -/
theorem save_ply_delegates_witness :
    0 < sample_cloud.n_vertices ∧
    (save_ply_element sample_cloud).name = "vertex".toList ∧
    (save_ply_element sample_cloud).num_instances = sample_cloud.n_vertices ∧
    (save_ply accepting_writer sample_file (some sample_cloud) false).writes
      = [⟨sample_file, [save_ply_element sample_cloud], [], false⟩] ∧
    (save_ply accepting_writer sample_file (some sample_cloud) false).ok
      = accepting_writer.write sample_file [save_ply_element sample_cloud] [] false :=
  ⟨by decide, save_ply_delegates accepting_writer sample_file sample_cloud false (by decide)⟩

theorem add_properties_name_of_occurs (name : CppString) (h : "v:".toList <:+: name) :
    add_properties_name name = name := by
  unfold add_properties_name find
  have h2 : ¬ find_from name "v:".toList 0 = none :=
    fun h3 => (find_from_eq_none_iff name _ 0).1 h3 h
  rw [if_neg h2]

theorem marker_infix_add_properties_name (name : CppString) :
    "v:".toList <:+: add_properties_name name := by
  by_cases h : "v:".toList <:+: name
  · rw [add_properties_name_of_occurs name h]
    exact h
  · rw [ add_properties_name_of_not_infix name h]
    exact (List.prefix_append _ _).isInfix

theorem marker_append_ne (name : CppString) : "v:".toList ++ name ≠ name := by
  intro h
  have h2 := congrArg List.length h
  rw [List.length_append] at h2
  have h3 : "v:".toList.length = 2 := rfl
  omega

/-- C11, as stated, fails. For the name "v:x", a property named "v:v:x" is stored
under "v:v:x" and a property named "v:x" under "v:x". -/
theorem add_properties_name_marked_twice :
    add_properties_name ("v:".toList ++ "v:x".toList) = "v:v:x".toList ∧
    add_properties_name "v:x".toList = "v:x".toList ∧
    add_properties_name ("v:".toList ++ "v:x".toList) ≠ add_properties_name "v:x".toList ∧
    (add_properties float PointCloud.empty
      [⟨"vertex".toList, "v:".toList ++ "v:x".toList, [⟨1⟩]⟩]).vertex_properties
        = ["v:v:x".toList] ∧
    (add_properties float PointCloud.empty
      [⟨"vertex".toList, "v:x".toList, [⟨1⟩]⟩]).vertex_properties = ["v:x".toList] := by
  decide

/-- C11, amended. For every name `n` that does not contain "v:", a property named
"v:" followed by `n` is stored under the same name as a property named `n`,
and installing either one gives the same cloud. -/
theorem add_properties_marked_name (n : CppString) (h : ¬ "v:".toList <:+: n) :
    add_properties_name ("v:".toList ++ n) = add_properties_name n ∧
    ∀ (T : Type) [PropertyType T] (cloud : PointCloud) (element_name : CppString)
      (v : List T),
      add_properties T cloud [⟨element_name, "v:".toList ++ n, v⟩]
        = add_properties T cloud [⟨element_name, n, v⟩] := by
  have hname : add_properties_name ("v:".toList ++ n) = add_properties_name n := by
    rw [add_properties_name_of_occurs _ (List.prefix_append _ _).isInfix,
      add_properties_name_of_not_infix n h]
  refine ⟨hname, ?_⟩
  intro T _ cloud element_name v
  show add_properties_step T cloud ⟨element_name, "v:".toList ++ n, v⟩
    = add_properties_step T cloud ⟨element_name, n, v⟩
  unfold add_properties_step
  simp only [hname]

/-- The names "v:quality" and "quality" are stored alike. -/
theorem add_properties_marked_name_witness :
    ¬ "v:".toList <:+: "quality".toList ∧
    add_properties_name ("v:".toList ++ "quality".toList)
      = add_properties_name "quality".toList ∧
    add_properties float sample_cloud [⟨"vertex".toList, "v:".toList ++ "quality".toList, [⟨1⟩, ⟨2⟩]⟩]
      = add_properties float sample_cloud [⟨"vertex".toList, "quality".toList, [⟨1⟩, ⟨2⟩]⟩] :=
  ⟨by decide, (add_properties_marked_name "quality".toList (by decide)).1,
    (add_properties_marked_name "quality".toList (by decide)).2 float sample_cloud
      "vertex".toList [⟨1⟩, ⟨2⟩]⟩

/-- C12. For every file-model name that does not start with "v:", the name
`collect_properties` makes of the name under which `add_properties` stores it
is the name itself. -/
theorem collect_after_add_name (name : CppString) (h : ¬ "v:".toList <+: name) :
    collect_properties_name (add_properties_name name) = name := by
  by_cases hi : "v:".toList <:+: name
  · rw [add_properties_name_of_occurs name hi]
    exact collect_properties_name_other name
      (fun h2 => h ((marker_isPrefix_iff name).2 h2))
  · rw [ add_properties_name_of_not_infix name hi]
    exact collect_properties_name_marker name

/-- The file-model names "point" and "av:b" come back from the cloud as they
went in. -/
theorem collect_after_add_name_witness :
    (¬ "v:".toList <+: "point".toList ∧
      collect_properties_name (add_properties_name "point".toList) = "point".toList) ∧
    (¬ "v:".toList <+: "av:b".toList ∧
      collect_properties_name (add_properties_name "av:b".toList) = "av:b".toList) :=
  ⟨⟨by decide, collect_after_add_name "point".toList (by decide)⟩,
    ⟨by decide, collect_after_add_name "av:b".toList (by decide)⟩⟩

/-- C13. The name computed by `add_properties` is a fixed point of the
computation: applied to a name it has produced, it prepends nothing. -/
theorem add_properties_name_idempotent (name : CppString) :
    add_properties_name (add_properties_name name) = add_properties_name name :=
  add_properties_name_of_occurs _ (marker_infix_add_properties_name name)

/-- C16. For every internal name, `add_properties` stores the name
`collect_properties` makes of it under the internal name again exactly when
the name starts with "v:" and has no "v:" after these two characters, or does
not start with "v:" and contains "v:". -/
theorem add_after_collect_name_iff (name : CppString) :
    add_properties_name (collect_properties_name name) = name ↔
      ((∃ rest, name = "v:".toList ++ rest ∧ ¬ "v:".toList <:+: rest) ∨
        (¬ "v:".toList <+: name ∧ "v:".toList <:+: name)) := by
  by_cases hp : "v:".toList <+: name
  · obtain ⟨rest, hrest⟩ := (marker_isPrefix_iff name).1 hp
    have hname : name = "v:".toList ++ rest := hrest
    have hc : collect_properties_name name = rest := by
      rw [hrest]
      exact collect_properties_name_marker rest
    rw [hc]
    by_cases hi : "v:".toList <:+: rest
    · rw [add_properties_name_of_occurs rest hi]
      constructor
      · intro h
        exact absurd (hname.symm.trans h.symm) (marker_append_ne rest)
      · rintro (⟨rest2, h1, h2⟩ | ⟨h1, _⟩)
        · have : rest2 = rest := List.append_cancel_left (h1.symm.trans hname)
          rw [this] at h2
          exact absurd hi h2
        · exact absurd hp h1
    · rw [ add_properties_name_of_not_infix rest hi]
      constructor
      · intro _
        exact Or.inl ⟨rest, hname, hi⟩
      · intro _
        exact hname.symm
  · have hc : collect_properties_name name = name :=
      collect_properties_name_other name (fun h2 => hp ((marker_isPrefix_iff name).2 h2))
    rw [hc]
    by_cases hi : "v:".toList <:+: name
    · rw [add_properties_name_of_occurs name hi]
      constructor
      · intro _
        exact Or.inr ⟨hp, hi⟩
      · intro _
        rfl
    · rw [ add_properties_name_of_not_infix name hi]
      constructor
      · intro h
        exact absurd h (marker_append_ne name)
      · rintro (⟨rest, h1, _⟩ | ⟨_, h2⟩)
        · exact absurd (h1 ▸ List.prefix_append _ _) hp
        · exact absurd h2 hi

/-! ## Vertex count and vector lengths after `load_ply` -/

theorem load_ply_resize_of_no_vertex (elements : List Element) (cloud : PointCloud)
    (h : ∀ e ∈ elements, e.name ≠ "vertex".toList) : load_ply_resize elements cloud = cloud := by
  induction elements with
  | nil => rfl
  | cons e es ih =>
    unfold load_ply_resize
    rw [if_neg (h e (List.mem_cons_self _ _))]
    exact ih fun x hx => h x (List.mem_cons_of_mem _ hx)

theorem vertex_rows_of_no_vertex (elements : List Element)
    (h : ∀ e ∈ elements, e.name ≠ "vertex".toList) : vertex_rows elements = [] := by
  induction elements with
  | nil => rfl
  | cons e es ih =>
    unfold vertex_rows
    rw [if_neg (h e (List.mem_cons_self _ _))]
    exact ih fun x hx => h x (List.mem_cons_of_mem _ hx)

/-- C14. When the codec reads a sequence without an element named "vertex",
`load_ply` returns success and the cloud is the one it was given: same vertex
count, same property table. -/
theorem load_ply_without_vertex (reader : PlyReader) (file_name : CppString)
    (cloud : PointCloud) (elements : List Element)
    (hread : reader.read file_name = (true, elements))
    (hno : ∀ e ∈ elements, e.name ≠ "vertex".toList) :
    (load_ply reader file_name cloud).ok = true ∧
    (load_ply reader file_name cloud).cloud.n_vertices = cloud.n_vertices ∧
    (load_ply reader file_name cloud).cloud = cloud := by
  obtain ⟨hok, hcloud⟩ := load_ply_of_read reader file_name cloud _ hread
  have h : (load_ply reader file_name cloud).cloud = cloud := by
    rw [hcloud, load_ply_resize_of_no_vertex elements cloud hno,
      vertex_rows_of_no_vertex elements hno]
    rfl
  exact ⟨hok, by rw [h], h⟩

/-- A face element alone leaves `sample_cloud` as it was. -/
theorem load_ply_without_vertex_witness :
    face_reader.read sample_file = (true, [face_element]) ∧
    (∀ e ∈ [face_element], e.name ≠ "vertex".toList) ∧
    (load_ply face_reader sample_file sample_cloud).ok = true ∧
    (load_ply face_reader sample_file sample_cloud).cloud.n_vertices = 2 ∧
    (load_ply face_reader sample_file sample_cloud).cloud = sample_cloud :=
  ⟨rfl, by decide,
    load_ply_without_vertex face_reader sample_file sample_cloud [face_element] rfl
      (by decide)⟩

/-- C17. The count `load_ply` passes to `resize` is the instance count of the
first element named "vertex" modulo 2^32, and the vertex count of the cloud
after the call is that instance count exactly when it is below 2^32. -/
theorem load_ply_vertex_count_truncated (reader : PlyReader) (file_name : CppString)
    (cloud : PointCloud) (pre post : List Element) (e : Element)
    (hread : reader.read file_name = (true, pre ++ e :: post))
    (hpre : ∀ x ∈ pre, x.name ≠ "vertex".toList) (he : e.name = "vertex".toList) :
    load_ply_resize (pre ++ e :: post) cloud = cloud.resize (e.num_instances % 2 ^ 32) ∧
    (load_ply reader file_name cloud).cloud.n_vertices = e.num_instances % 2 ^ 32 ∧
    ((load_ply reader file_name cloud).cloud.n_vertices = e.num_instances
      ↔ e.num_instances < 2 ^ 32) := by
  obtain ⟨_, hcloud⟩ := load_ply_of_read reader file_name cloud _ hread
  have hresize := load_ply_resize_first pre post e cloud hpre he
  have hn : (load_ply reader file_name cloud).cloud.n_vertices = e.num_instances % 2 ^ 32 := by
    rw [hcloud, hresize]
    rfl
  refine ⟨hresize, hn, ?_⟩
  rw [hn]
  constructor
  · intro h
    have := Nat.mod_lt e.num_instances (show 0 < 2 ^ 32 by norm_num)
    omega
  · exact Nat.mod_eq_of_lt

/-- An instance count of 2^32 + 3 leaves a cloud of three vertices. -/
theorem load_ply_vertex_count_truncated_witness :
    large_reader.read sample_file = (true, [face_element] ++ large_element :: []) ∧
    large_element.num_instances = 2 ^ 32 + 3 ∧
    (load_ply large_reader sample_file sample_cloud).cloud.n_vertices = 3 ∧
    ¬ (load_ply large_reader sample_file sample_cloud).cloud.n_vertices
      = large_element.num_instances :=
  ⟨rfl, rfl,
    (load_ply_vertex_count_truncated large_reader sample_file sample_cloud [face_element] []
      large_element rfl (by decide) rfl).2.1,
    fun h => absurd
      ((load_ply_vertex_count_truncated large_reader sample_file sample_cloud [face_element] []
        large_element rfl (by decide) rfl).2.2.1 h) (by decide)⟩

theorem mem_upsert (name : CppString) (a : PropertyArray) (es : List PropertyEntry)
    (x : PropertyEntry) (h : x ∈ upsert name a es) : x ∈ es ∨ x.array = a := by
  induction es with
  | nil =>
    have hx : x = ⟨name, a⟩ := by simpa [upsert] using h
    exact Or.inr (by rw [hx])
  | cons q qs ih =>
    unfold upsert at h
    by_cases hc : q.name = name ∧ q.array.category = a.category
    · rw [if_pos hc] at h
      rcases List.mem_cons.1 h with hx | hx
      · exact Or.inr (by rw [hx])
      · exact Or.inl (List.mem_cons_of_mem _ hx)
    · rw [if_neg hc] at h
      rcases List.mem_cons.1 h with hx | hx
      · exact Or.inl (by rw [hx]; exact List.mem_cons_self _ _)
      · rcases ih hx with h1 | h1
        · exact Or.inl (List.mem_cons_of_mem _ h1)
        · exact Or.inr h1

theorem mem_install (rows table : List PropertyEntry) (x : PropertyEntry)
    (h : x ∈ install rows table) : x ∈ table ∨ ∃ r ∈ rows, x.array = r.array := by
  induction rows generalizing table with
  | nil => exact Or.inl h
  | cons r rs ih =>
    have hstep : install (r :: rs) table = install rs (upsert r.name r.array table) := rfl
    rw [hstep] at h
    rcases ih _ h with h1 | ⟨y, hy, hxy⟩
    · rcases mem_upsert _ _ _ _ h1 with h2 | h2
      · exact Or.inl h2
      · exact Or.inr ⟨r, List.mem_cons_self _ _, h2⟩
    · exact Or.inr ⟨y, List.mem_cons_of_mem _ hy, hxy⟩

theorem mem_vertex_rows (elements : List Element) (r : PropertyEntry)
    (h : r ∈ vertex_rows elements) :
    ∃ e ∈ elements, e.name = "vertex".toList ∧ r ∈ e.rows := by
  induction elements with
  | nil => cases h
  | cons e es ih =>
    unfold vertex_rows at h
    by_cases hv : e.name = "vertex".toList
    · rw [if_pos hv] at h
      rcases List.mem_append.1 h with h1 | h1
      · exact ⟨e, List.mem_cons_self _ _, hv, h1⟩
      · obtain ⟨y, hy, hy2⟩ := ih h1
        exact ⟨y, List.mem_cons_of_mem _ hy, hy2⟩
    · rw [if_neg hv] at h
      obtain ⟨y, hy, hy2⟩ := ih h
      exact ⟨y, List.mem_cons_of_mem _ hy, hy2⟩

theorem size_of_mem_rows (e : Element) (hwf : e.well_formed) (r : PropertyEntry)
    (h : r ∈ e.rows) : r.array.size = e.num_instances := by
  obtain ⟨h1, h2, h3, h4, h5⟩ := hwf
  unfold Element.rows at h
  simp only [List.mem_append, List.mem_map] at h
  rcases h with ⟨p, hp, rfl⟩ | ⟨p, hp, rfl⟩ | ⟨p, hp, rfl⟩ | ⟨p, hp, rfl⟩ | ⟨p, hp, rfl⟩
  · exact h1 p hp
  · exact h2 p hp
  · exact h3 p hp
  · exact h4 p hp
  · exact h5 p hp

theorem load_ply_resize_empty (elements : List Element) :
    ((∀ e ∈ elements, e.name ≠ "vertex".toList) ∧
      load_ply_resize elements PointCloud.empty = PointCloud.empty) ∨
    ∃ e ∈ elements, e.name = "vertex".toList ∧
      load_ply_resize elements PointCloud.empty = ⟨e.num_instances % 2 ^ 32, []⟩ := by
  induction elements with
  | nil => exact Or.inl ⟨fun e he => (by cases he), rfl⟩
  | cons e es ih =>
    by_cases hv : e.name = "vertex".toList
    · refine Or.inr ⟨e, List.mem_cons_self _ _, hv, ?_⟩
      unfold load_ply_resize
      rw [if_pos hv]
      rfl
    · have hstep : load_ply_resize (e :: es) PointCloud.empty
          = load_ply_resize es PointCloud.empty := by
        conv_lhs => unfold load_ply_resize
        rw [if_neg hv]
      rw [hstep]
      rcases ih with ⟨h1, h2⟩ | ⟨y, hy, hy2, hy3⟩
      · refine Or.inl ⟨?_, h2⟩
        intro x hx
        rcases List.mem_cons.1 hx with rfl | hx2
        · exact hv
        · exact h1 x hx2
      · exact Or.inr ⟨y, List.mem_cons_of_mem _ hy, hy2, hy3⟩

/-- C15, as stated, fails. Both elements returned by `two_vertex_reader` are
named "vertex" and well-formed, of two and of three rows. Loaded into the
empty cloud they leave two vertices and a float property "v:quality" of three
entries. -/
theorem load_ply_lengths_two_vertex_elements :
    two_vertex_reader.read sample_file = (true, [short_element, scenario_element]) ∧
    short_element.well_formed ∧ scenario_element.well_formed ∧
    (load_ply two_vertex_reader sample_file PointCloud.empty).ok = true ∧
    (load_ply two_vertex_reader sample_file PointCloud.empty).cloud.n_vertices = 2 ∧
    (load_ply two_vertex_reader sample_file PointCloud.empty).cloud.values float
      "v:quality".toList = some [⟨10⟩, ⟨11⟩, ⟨12⟩] ∧
    ¬ (∀ row ∈ (load_ply two_vertex_reader sample_file PointCloud.empty).cloud.properties,
      row.array.size
        = (load_ply two_vertex_reader sample_file PointCloud.empty).cloud.n_vertices) := by
  decide

/-- C15, amended. When every element of the sequence read is well-formed and all
its elements named "vertex" have the same instance count `k`, below 2^32, then
after `load_ply` into the empty cloud every row of the property table, and so
every vector a property handle exposes, has as many entries as the cloud has
vertices. -/
theorem load_ply_lengths (reader : PlyReader) (file_name : CppString)
    (elements : List Element) (k : Nat)
    (hread : reader.read file_name = (true, elements))
    (hwf : ∀ e ∈ elements, e.well_formed)
    (hk : ∀ e ∈ elements, e.name = "vertex".toList → e.num_instances = k)
    (h32 : k < 2 ^ 32) :
    (∀ row ∈ (load_ply reader file_name PointCloud.empty).cloud.properties,
      row.array.size = (load_ply reader file_name PointCloud.empty).cloud.n_vertices) ∧
    ∀ (T : Type) [PropertyType T] (name : CppString) (v : List T),
      (load_ply reader file_name PointCloud.empty).cloud.values T name = some v →
        (PropertyType.toArray v).size
          = (load_ply reader file_name PointCloud.empty).cloud.n_vertices := by
  obtain ⟨_, hcloud⟩ := load_ply_of_read reader file_name PointCloud.empty _ hread
  have hrows : ∀ row ∈ (load_ply reader file_name PointCloud.empty).cloud.properties,
      row.array.size = (load_ply reader file_name PointCloud.empty).cloud.n_vertices := by
    rw [hcloud]
    intro row hrow
    have hrow2 : row ∈ install (vertex_rows elements)
        (load_ply_resize elements PointCloud.empty).properties := hrow
    show row.array.size = (load_ply_resize elements PointCloud.empty).n_vertices
    rcases load_ply_resize_empty elements with ⟨hno, hresize⟩ | ⟨e, he, hv, hresize⟩
    · rw [vertex_rows_of_no_vertex elements hno, hresize] at hrow2
      cases hrow2
    · rw [hresize] at hrow2 ⊢
      rcases mem_install _ _ _ hrow2 with h1 | ⟨r, hr, hra⟩
      · cases h1
      · obtain ⟨e2, he2, hv2, hr2⟩ := mem_vertex_rows elements r hr
        rw [hra, size_of_mem_rows e2 (hwf e2 he2) r hr2, hk e2 he2 hv2]
        show k = e.num_instances % 2 ^ 32
        rw [hk e he hv, Nat.mod_eq_of_lt h32]
  refine ⟨hrows, ?_⟩
  intro T _ name v hv
  rw [values_eq_lookup] at hv
  cases hl : lookup (PropertyType.category T) name
      (load_ply reader file_name PointCloud.empty).cloud.properties with
  | none => rw [hl] at hv; cases hv
  | some a =>
    rw [hl] at hv
    have ha : a = PropertyType.toArray v := PropertyType.toArray_of_ofArray a v hv
    rw [← ha]
    exact hrows ⟨name, a⟩ (lookup_mem _ _ _ _ hl)

/-- The scenario of the specification behind a face element: three vertices,
three entries in "v:point". -/
theorem load_ply_lengths_witness :
    scenario_reader.read sample_file = (true, [face_element, scenario_element]) ∧
    (∀ e ∈ [face_element, scenario_element], e.well_formed) ∧
    (∀ e ∈ [face_element, scenario_element], e.name = "vertex".toList → e.num_instances = 3) ∧
    (∀ row ∈ (load_ply scenario_reader sample_file PointCloud.empty).cloud.properties,
      row.array.size = (load_ply scenario_reader sample_file PointCloud.empty).cloud.n_vertices) ∧
    (load_ply scenario_reader sample_file PointCloud.empty).cloud.n_vertices = 3 :=
  ⟨rfl, by decide, by decide,
    (load_ply_lengths scenario_reader sample_file [face_element, scenario_element] 3 rfl
      (by decide) (by decide) (by decide)).1,
    by decide⟩

end easy3d
